import Mathlib

/-!
Verification development for the cvbuilder analysis core
(`backend/ats/scorer.py` and the field extractors of `backend/main.py`).

Texts are modelled as `List Char` (the ASCII fragment: Python `str.lower`
is modelled by `Char.toLower`, the regex classes `\s` and `\w` by their
ASCII meanings).  Python regular-expression scanning is embedded by
specialised scanners that implement the exact patterns appearing in the
source; configuration dictionaries become structures or association
lists, with `dict.get` defaults modelled by `Option.getD` / lookup
defaults.  Python exceptions are modelled by `Except`.
-/

namespace CvBuilder

abbrev Str := List Char

/-- Python regex `\s` (ASCII fragment): space, tab, newline, carriage
return, vertical tab, form feed (code points 32, 9, 10, 13, 11, 12). -/
def isSpaceChar (c : Char) : Bool :=
  c.toNat = 32 || c.toNat = 9 || c.toNat = 10 || c.toNat = 13 ||
    c.toNat = 11 || c.toNat = 12

/-- Python regex `\w` (ASCII fragment): letters, digits, underscore. -/
def isWordChar (c : Char) : Bool :=
  (65 ≤ c.toNat && c.toNat ≤ 90) || (97 ≤ c.toNat && c.toNat ≤ 122) ||
    (48 ≤ c.toNat && c.toNat ≤ 57) || c.toNat = 95

/-- `t` occurs as a contiguous block of `s` starting at index `i`. -/
def occursAt (t s : Str) (i : Nat) : Bool :=
  decide ((s.drop i).take t.length = t)

/-- Python slice `s[a:b]` (indices clamped like Python slicing). -/
def pySlice (s : Str) (a b : Nat) : Str :=
  (s.drop a).take (b - a)

/-- `scorer.normalize`, step 1: `text.lower()` (ASCII fragment of
Python `str.lower`: code points 65-90 shift to 97-122). -/
def pyLower (c : Char) : Char :=
  if 65 ≤ c.toNat && c.toNat ≤ 90 then Char.ofNat (c.toNat + 32) else c

/-- `scorer.normalize`, step 2: `re.sub(r"[\t\r]", " ", text)`. -/
def fixTabCr (c : Char) : Char :=
  if c.toNat = 9 || c.toNat = 13 then ' ' else c

/-- `scorer.normalize`, step 3: en dash (0x2013) and em dash (0x2014)
become a plain hyphen. -/
def fixDash (c : Char) : Char :=
  if c.toNat = 0x2013 || c.toNat = 0x2014 then '-' else c

/-- The character allow-list of `scorer.normalize`, step 4: lowercase
letters, digits, the characters percent, dollar, plus, hyphen, slash,
dot, comma, parentheses, and whitespace. -/
def allowedChar (c : Char) : Bool :=
  (97 ≤ c.toNat && c.toNat ≤ 122) || (48 ≤ c.toNat && c.toNat ≤ 57) ||
    c.toNat = 37 || c.toNat = 36 || c.toNat = 43 || c.toNat = 45 ||
    c.toNat = 47 || c.toNat = 46 || c.toNat = 44 || c.toNat = 40 ||
    c.toNat = 41 || isSpaceChar c

/-- `scorer.normalize`, step 4: replace every character outside the
allow-list by a space. -/
def dropDisallowed (c : Char) : Char :=
  if allowedChar c then c else ' '

/-- The per-character composite of normalization steps 1-4. -/
def normChar (c : Char) : Char :=
  dropDisallowed (fixDash (fixTabCr (pyLower c)))

/-- `re.sub(r"\s+", " ", text)`: every maximal whitespace run becomes a
single space. -/
def collapseWs : Str → Str
  | [] => []
  | [c] => if isSpaceChar c then [' '] else [c]
  | c :: d :: rest =>
    if isSpaceChar c && isSpaceChar d then collapseWs (d :: rest)
    else (if isSpaceChar c then ' ' else c) :: collapseWs (d :: rest)

/-- Remove trailing whitespace (the right half of Python `str.strip`). -/
def dropTrailingWs : Str → Str
  | [] => []
  | c :: rest =>
    match dropTrailingWs rest with
    | [] => if isSpaceChar c then [] else [c]
    | r => c :: r

/-- Python `str.strip()` (whitespace on both ends). -/
def stripWs (s : Str) : Str :=
  dropTrailingWs (s.dropWhile isSpaceChar)

/-- `scorer.normalize`: lowercase, tabs/CRs to spaces, en/em dashes to
hyphens, disallowed characters to spaces, whitespace runs collapsed to a
single space, ends stripped. -/
def normalize (text : Str) : Str :=
  stripWs (collapseWs (text.map normChar))

/-! ## Matcher (`scorer.count_matches` and the weak-language scanner)

Both use the Python pattern `(^|\W) term (\W|$)` (the term is
`re.escape`d, hence literal).  `bmatchAt t s i` models an attempt of
that pattern at position `i`: the alternation tries `^` first (only at
position 0), then a single non-word character; the right boundary tries
a non-word character first, then end of string.  The returned value is
the match end (the boundary characters are part of the match, which
matters for `re.finditer` non-overlap). -/

/-- Right boundary `(\W|$)` at position `k`: consumes one non-word
character, or matches the end of the string. -/
def rightBEnd (s : Str) (k : Nat) : Option Nat :=
  match s.drop k with
  | [] => if k = s.length then some k else none
  | c :: _ => if isWordChar c then none else some (k + 1)

/-- The `\W`-alternative of the left boundary: consume one non-word
character at `i`, then `t`, then the right boundary. -/
def bmatchAtW (t s : Str) (i : Nat) : Option Nat :=
  match s.drop i with
  | [] => none
  | c :: _ =>
    if !isWordChar c && occursAt t s (i + 1) then
      rightBEnd s (i + 1 + t.length)
    else none

/-- One attempt of `(^|\W) t (\W|$)` at position `i` (the `^`
alternative is tried first, backtracking into the `\W` alternative);
returns the match end on success. -/
def bmatchAt (t s : Str) (i : Nat) : Option Nat :=
  if i = 0 && occursAt t s 0 then
    match rightBEnd s t.length with
    | some e => some e
    | none => bmatchAtW t s i
  else bmatchAtW t s i

/-- `re.search` of the boundary pattern: does any position match? -/
def bsearch (t s : Str) : Bool :=
  (List.range (s.length + 1)).any (fun i => (bmatchAt t s i).isSome)

/-- Leftmost match of the boundary pattern at or after position `i`. -/
def bfindFrom (t s : Str) (i : Nat) : Option (Nat × Nat) :=
  (List.range (s.length + 1 - i)).findSome? (fun d =>
    (bmatchAt t s (i + d)).map (fun e => (i + d, e)))

/-- `re.finditer` of the boundary pattern: non-overlapping leftmost
matches, resuming at each match end (one past it for an empty match). -/
def bfinditerAux (t s : Str) : Nat → Nat → List (Nat × Nat)
  | 0, _ => []
  | fuel + 1, i =>
    match bfindFrom t s i with
    | none => []
    | some (j, e) => (j, e) :: bfinditerAux t s fuel (max e (j + 1))

def bfinditer (t s : Str) : List (Nat × Nat) :=
  bfinditerAux t s (s.length + 1) 0

/-- `scorer.count_matches`: split the term list into (matched, missing)
by searching each term with the boundary pattern. -/
def count_matches (text : Str) (terms : List Str) : List Str × List Str :=
  match terms with
  | [] => ([], [])
  | t :: ts =>
    let r := count_matches text ts
    if bsearch t text then (t :: r.1, r.2) else (r.1, t :: r.2)

/-- Plain substring containment, the matching policy the specification
ascribes to `count_matches` (spec-side definition, for comparison with
the source-side `count_matches`). -/
def specSubstrContains (t s : Str) : Bool :=
  (List.range (s.length + 1)).any (fun i => occursAt t s i)

/-- The word-boundary occurrence predicate: `t` occurs at some position
with a non-word character (or a text edge) on both sides. -/
def boundaryOccurs (t s : Str) : Prop :=
  ∃ i, i ≤ s.length ∧ occursAt t s i = true ∧
    (i = 0 ∨ isWordChar ((s.drop (i - 1)).headD ' ') = false) ∧
    (i + t.length = s.length ∨ isWordChar ((s.drop (i + t.length)).headD ' ') = false)

/-! ## Keyword flattener (`scorer.flatten_keywords`) -/

/-- A loaded JSON-ish configuration tree: the recursion of
`flatten_keywords` collects strings, walks lists and dict values, and
ignores every other leaf. -/
inductive KwTree where
  | leaf : Str → KwTree
  | arr : List KwTree → KwTree
  | dict : List (Str × KwTree) → KwTree
  | other : KwTree

mutual

def kwStrings : KwTree → List Str
  | .leaf s => [s]
  | .arr xs => kwStringsList xs
  | .dict xs => kwStringsDict xs
  | .other => []

def kwStringsList : List KwTree → List Str
  | [] => []
  | x :: xs => kwStrings x ++ kwStringsList xs

def kwStringsDict : List (Str × KwTree) → List Str
  | [] => []
  | x :: xs => kwStrings x.2 ++ kwStringsDict xs

end

/-- The per-key normalization of the de-dup step:
`re.sub(r"\s+", " ", k.strip().lower())`. -/
def kwNorm (k : Str) : Str :=
  collapseWs ((stripWs k).map pyLower)

/-- De-duplicate by normalized key, keep first-seen order, drop empties
(the `seen` / `final` loop of `flatten_keywords`). -/
def dedupeKw (seen : List Str) : List Str → List Str
  | [] => []
  | k :: ks =>
    let n := kwNorm k
    if n ≠ [] ∧ n ∉ seen then n :: dedupeKw (n :: seen) ks
    else dedupeKw seen ks

def flatten_keywords (t : KwTree) : List Str :=
  dedupeKw [] (kwStrings t)

/-! ## Readability analyzer (`scorer.calc_readability`)

Ratios are modelled in `ℚ` (exact rationals) in place of Python binary
floats; the configured thresholds are likewise rationals.  The Python
display-rounding (`round(x, 2)` etc.) of the two ratio fields is not
modelled: the structure carries the exact values. -/

/-- `re.findall(r"[a-zA-Z]+", text)`: maximal alphabetic runs. -/
def alphaWordsAux : Nat → Str → List Str
  | 0, _ => []
  | _, [] => []
  | fuel + 1, c :: rest =>
    if c.isAlpha then
      (c :: rest.takeWhile Char.isAlpha) ::
        alphaWordsAux fuel (rest.dropWhile Char.isAlpha)
    else alphaWordsAux fuel rest

def alphaWords (t : Str) : List Str :=
  alphaWordsAux (t.length + 1) t

def isSentPunct (c : Char) : Bool :=
  c = '.' || c = '!' || c = '?'

/-- `re.split(r"[.!?]+\s+", text)`: pieces between separator matches,
where a separator is a maximal sentence-punctuation run followed by at
least one whitespace character. -/
def sentSplitAux : Nat → Str → Str → List Str
  | 0, s, acc => [acc.reverse ++ s]
  | _ + 1, [], acc => [acc.reverse]
  | fuel + 1, c :: rest, acc =>
    if isSentPunct c then
      let punct := (c :: rest).takeWhile isSentPunct
      let r1 := (c :: rest).dropWhile isSentPunct
      let sp := r1.takeWhile isSpaceChar
      if sp.isEmpty then sentSplitAux fuel r1 (punct.reverse ++ acc)
      else acc.reverse :: sentSplitAux fuel (r1.dropWhile isSpaceChar) []
    else sentSplitAux fuel rest (c :: acc)

def sentSplit (t : Str) : List Str :=
  sentSplitAux (t.length + 1) t []

/-- `cfg.get(key, default)` on a numeric configuration dictionary. -/
def cfgGetQ (cfg : List (Str × ℚ)) (k : Str) (d : ℚ) : ℚ :=
  match cfg.find? (fun p => p.1 == k) with
  | some p => p.2
  | none => d

def msgAvgSentence : Str := "Average sentence length is high".data

def msgComplexWords : Str := "Too many complex words".data

structure Readability where
  word_count : Nat
  sentence_count : Nat
  avg_sentence_length : ℚ
  complexShareQ : ℚ
  warnings : List Str
deriving DecidableEq

/-- `scorer.calc_readability`.  (The source field name of
`complexShareQ` is `complex_word_ratio`.) -/
def calc_readability (text : Str) (cfg : List (Str × ℚ)) : Readability :=
  let words := alphaWords text
  let sents := (sentSplit text).filter (fun s => s.any (fun c => !isSpaceChar c))
  let wc := words.length
  let sc := max 1 sents.length
  let avg : ℚ := mkRat wc sc
  let cmin := cfgGetQ cfg "complex_word_min_len".data 7
  let cwords := words.filter (fun w => (w.length : ℚ) ≥ cmin)
  let cshare : ℚ := mkRat cwords.length (max 1 wc)
  let warns :=
    (if avg > cfgGetQ cfg "max_sentence_length".data 24 then [msgAvgSentence] else []) ++
    (if cshare > cfgGetQ cfg "max_complex_ratio".data (mkRat 15 100) then [msgComplexWords]
      else [])
  ⟨wc, sc, avg, cshare, warns⟩

/-! ## Configured regular expressions (grammar rules, quantification)

The grammar patterns and quantification patterns come from
configuration and are compiled by Python `re` at scan time, raising
`re.error` on an unparseable pattern (there is no try/except around the
loops in `ats_score`).  Pattern compilation is modelled on the literal
fragment: a pattern containing no regex metacharacter always compiles
and matches itself literally; every unparseable pattern necessarily
contains a metacharacter, so patterns outside the fragment are modelled
as compilation failures (`Except.error`). -/

def reMetaChars : List Char :=
  ['\\', '.', '^', '$', '*', '+', '?', '[', ']', '|', '(', ')',
    Char.ofNat 123, Char.ofNat 125]

def isLiteralRe (p : Str) : Bool :=
  p.all (fun c => !(reMetaChars.contains c))

/-- IGNORECASE matching is modelled by lowercasing both sides (ASCII). -/
def lowerT (s : Str) : Str := s.map pyLower

/-- Leftmost occurrence of the literal pattern at or after `i`. -/
def litFindFrom (p s : Str) (i : Nat) : Option (Nat × Nat) :=
  (List.range (s.length + 1 - i)).findSome? (fun d =>
    if occursAt p s (i + d) then some (i + d, i + d + p.length) else none)

/-- `re.finditer` for a literal pattern: leftmost non-overlapping
matches. -/
def litFinditerAux (p s : Str) : Nat → Nat → List (Nat × Nat)
  | 0, _ => []
  | fuel + 1, i =>
    match litFindFrom p s i with
    | none => []
    | some (j, e) => (j, e) :: litFinditerAux p s fuel (max e (j + 1))

def litFinditer (p s : Str) : List (Nat × Nat) :=
  litFinditerAux p s (s.length + 1) 0

/-- A grammar rule `{pattern, message, severity}`; the `Option`s model
`dict.get` on possibly missing keys. -/
structure GrammarRule where
  pattern : Option Str
  message : Option Str
  severity : Option Str
deriving DecidableEq

structure Issue where
  message : Str
  severity : Str
  count : Nat
  examples : List Str
deriving DecidableEq

def dGrammarMsg : Str := "Grammar issue".data

def dSeverity : Str := "medium".data

/-- The `±30` context snippet `cv_text[max(0, start-30) : end+30]`. -/
def snippetAt (text : Str) (se : Nat × Nat) : Str :=
  pySlice text (se.1 - 30) (se.2 + 30)

/-- One iteration of the grammar loop of `ats_score`: a missing or
empty pattern is skipped (`if not pat: continue`); an unparseable
pattern raises; otherwise the case-insensitive hits are aggregated into
one issue with the hit count and up to 5 context snippets. -/
def applyRule (text : Str) (r : GrammarRule) : Except Str (Option Issue) :=
  match r.pattern with
  | none => .ok none
  | some p =>
    if p.isEmpty then .ok none
    else if !isLiteralRe p then .error p
    else
      let hits := litFinditer (lowerT p) (lowerT text)
      if hits.isEmpty then .ok none
      else .ok (some
        { message := r.message.getD dGrammarMsg
          severity := r.severity.getD dSeverity
          count := hits.length
          examples := (hits.take 5).map (snippetAt text) })

/-- The grammar loop of `ats_score` over all configured rules; the
first raising rule aborts the whole computation (no try/except in the
source). -/
def grammarScanE (text : Str) : List GrammarRule → Except Str (List Issue)
  | [] => .ok []
  | r :: rs =>
    match applyRule text r with
    | .error e => .error e
    | .ok none => grammarScanE text rs
    | .ok (some iss) =>
      match grammarScanE text rs with
      | .error e => .error e
      | .ok l => .ok (iss :: l)

/-- The issue a single rule contributes when no exception occurs. -/
def grammarIssueOf (text : Str) (r : GrammarRule) : Option Issue :=
  match applyRule text r with
  | .ok o => o
  | .error _ => none

def isOkE {ε α : Type} : Except ε α → Bool
  | .ok _ => true
  | .error _ => false

/-- `scorer.regex_findall`: concatenated `re.findall` hits (matched
substrings of the original text) over a pattern list, IGNORECASE. -/
def regexFindallE (text : Str) : List Str → Except Str (List Str)
  | [] => .ok []
  | p :: ps =>
    if !isLiteralRe p then .error p
    else
      match regexFindallE text ps with
      | .error e => .error e
      | .ok rest =>
        .ok ((litFinditer (lowerT p) (lowerT text)).map
          (fun se => pySlice text se.1 se.2) ++ rest)

/-- The quantification loop of `ats_score`: per category, collect hits
over the original text, keep the first 10 when non-empty. -/
def quantScanE (text : Str) : List (Str × List Str) → Except Str (List (Str × List Str))
  | [] => .ok []
  | qp :: rest =>
    match regexFindallE text qp.2 with
    | .error e => .error e
    | .ok hits =>
      match quantScanE text rest with
      | .error e => .error e
      | .ok tl => .ok (if hits.isEmpty then tl else (qp.1, hits.take 10) :: tl)

/-! ## Weak language, configuration shapes, and `scorer.ats_score`

The spelling subsection of `ats_score` is not modelled: it only
produces the `spelling_suggestions` report field, never contributes to
the score, and cannot raise (no claim concerns it). -/

structure WeakHit where
  phrase : Str
  suggest : List Str
  pos : Nat × Nat
deriving DecidableEq

/-- First-match association-list lookup (Python dict access). -/
def lookupAssoc {α : Type} (m : List (Str × α)) (k : Str) : Option α :=
  match m.find? (fun p => p.1 == k) with
  | some p => some p.2
  | none => none

/-- The weak-language loop: for each configured phrase, every
`re.finditer` hit of `(^|\W) phrase.lower() (\W|$)` over the normalized
text yields one (unaggregated) hit carrying the replacement list looked
up under the original phrase. -/
def weakScan (norm : Str) (phrases : List Str) (repl : List (Str × List Str)) : List WeakHit :=
  match phrases with
  | [] => []
  | ph :: rest =>
    (bfinditer (lowerT ph) norm).map
      (fun sp => ⟨ph, (lookupAssoc repl ph).getD [], sp⟩) ++
      weakScan norm rest repl

/-- The slices of `language_quality.json` that `ats_score` reads
(spelling dictionaries omitted, see the section comment). -/
structure LangCfg where
  general_keywords : List Str
  grammar : List GrammarRule
  readability : List (Str × ℚ)

/-- The slices of `professional_language.json` that `ats_score`
reads. -/
structure ProfCfg where
  action_verbs : List (Str × List Str)
  weak_phrases : List Str
  weak_replacements : List (Str × List Str)
  buzzwords : List (Str × List Str)
  quantification_patterns : List (Str × List Str)

/-- The report assembled by `ats_score` (the derived percentage display
fields and the flattened `issues` list are not modelled; no claim
concerns them). -/
structure Report where
  ats_score : Int
  breakdown : List (Str × Int)
  keyword_matched : List Str
  keyword_missing : List Str
  industry_matched : List Str
  industry_missing : List Str
  action_verbs_found : List (Str × List Str)
  quantification_found : List (Str × List Str)
  grammar_issues : List Issue
  readability_report : Readability
  weak_language_found : List WeakHit
  industry_buzzwords_found : List Str
deriving DecidableEq

/-- `scorer.ats_score`.  The scoring block accumulates the five capped
positive contributions, subtracts the penalty
`min(10, grammarIssueCount) + min(5, weakHitCount)` with a floor at 0,
then adds the capped buzzword contribution, and finally clamps to
`[0, 100]`.  Exceptions escaping the quantification or grammar loops
abort the whole call (`Except.error`). -/
def ats_score (cv_text industry : Str) (lang : LangCfg) (prof : ProfCfg) (ind : KwTree) :
    Except Str Report :=
  let norm := normalize cv_text
  let general_keywords := lang.general_keywords.map (fun k => collapseWs (k.map pyLower))
  let industry_terms := flatten_keywords ind
  let buzzwords := (lookupAssoc prof.buzzwords (lowerT industry)).getD []
  let km := count_matches norm general_keywords
  let im := count_matches norm industry_terms
  let action_found := prof.action_verbs.filterMap (fun cv =>
    let m := (count_matches norm (cv.2.map lowerT)).1
    if m.isEmpty then none else some (cv.1, m))
  match quantScanE cv_text prof.quantification_patterns with
  | .error e => .error e
  | .ok quant_found =>
    match grammarScanE cv_text lang.grammar with
    | .error e => .error e
    | .ok grammar_issues =>
      let readability := calc_readability cv_text lang.readability
      let weak_hits := weakScan norm prof.weak_phrases prof.weak_replacements
      let buzz_found := (count_matches norm (buzzwords.map lowerT)).1
      let s1 : Int := min (km.1.length : Int) 15
      let s2 : Int := min (im.1.length : Int) 20
      let s3 : Int := min ((action_found.map (fun p => p.2.length)).sum : Int) 10
      let s4 : Int := min ((quant_found.map (fun p => p.2.length)).sum : Int) 10
      let s5 : Int := max 0 (10 - (readability.warnings.length : Int))
      let penalty : Int :=
        min 10 (grammar_issues.length : Int) + min 5 (weak_hits.length : Int)
      let afterPen : Int := max 0 (s1 + s2 + s3 + s4 + s5 - penalty)
      let s6 : Int := min (buzz_found.length : Int) 5
      let score : Int := afterPen + s6
      .ok
        { ats_score := max 0 (min 100 score)
          breakdown :=
            [("keywords".data, s1), ("industry_keywords".data, s2),
              ("action_verbs".data, s3), ("quantification".data, s4),
              ("readability".data, s5), ("buzzwords".data, s6)]
          keyword_matched := km.1
          keyword_missing := km.2
          industry_matched := im.1
          industry_missing := im.2
          action_verbs_found := action_found
          quantification_found := quant_found
          grammar_issues := grammar_issues
          readability_report := readability
          weak_language_found := weak_hits
          industry_buzzwords_found := buzz_found }

/-! ## Phone extraction (`main._extract_phone`)

The two source patterns are embedded as specialised matchers with the
regex backtracking behaviour they need: the country code `\+(\d)` is
1-3 digits greedy; the separator before the national group is a lazy
run of space / hyphen / parenthesis characters; the national group is
7-15 greedy repetitions of a digit followed by a greedy separator run;
the fallback North-American pattern is a chain of greedy optionals. -/

def sepChar1 (c : Char) : Bool :=
  isSpaceChar c || c = '-' || c = '(' || c = ')'

def sepChar2 (c : Char) : Bool :=
  isSpaceChar c || c = '-' || c = '.'

/-- Consume up to `budget` repetitions of `\d [\s\-()]*` greedily;
returns (repetitions, end position). -/
def numRepsAux (s : Str) : Nat → Nat → Nat × Nat
  | 0, i => (0, i)
  | budget + 1, i =>
    match s.drop i with
    | c :: _ =>
      if c.isDigit then
        let j := i + 1
        let j2 := j + ((s.drop j).takeWhile sepChar1).length
        let r := numRepsAux s budget j2
        (r.1 + 1, r.2)
      else (0, i)
    | [] => (0, i)

/-- Attempt of the international pattern at position `i` of the cleaned
text; returns (country-code digits, national group raw text). -/
def tryP1At (s : Str) (i : Nat) : Option (Str × Str) :=
  if (s.drop i).head? ≠ some '+' then none
  else
    [3, 2, 1].findSome? (fun ccLen =>
      let ccStart := i + 1
      let cc := pySlice s ccStart (ccStart + ccLen)
      if cc.length = ccLen ∧ cc.all Char.isDigit then
        let maxSep := ((s.drop (ccStart + ccLen)).takeWhile sepChar1).length
        (List.range (maxSep + 1)).findSome? (fun sepLen =>
          let numStart := ccStart + ccLen + sepLen
          let r := numRepsAux s 15 numStart
          if r.1 ≥ 7 then some (cc, pySlice s numStart r.2) else none)
      else none)

def findP1 (s : Str) : Option (Str × Str) :=
  (List.range (s.length + 1)).findSome? (fun i => tryP1At s i)

/-- Positions after a greedy optional single character satisfying `p`
(the consuming alternative is tried first). -/
def tryOpt (s : Str) (i : Nat) (p : Char → Bool) : List Nat :=
  match s.drop i with
  | c :: _ => if p c then [i + 1, i] else [i]
  | [] => [i]

def digitsAt (s : Str) (i n : Nat) : Bool :=
  ((s.drop i).take n).length = n && ((s.drop i).take n).all Char.isDigit

/-- Attempt of the fallback pattern
`\(? \d3 \)? sep? \d3 sep? \d4` at position `i`; returns the whole
matched text. -/
def tryP2At (s : Str) (i : Nat) : Option Str :=
  (tryOpt s i (fun c => c = '(')).findSome? (fun i1 =>
    if digitsAt s i1 3 then
      (tryOpt s (i1 + 3) (fun c => c = ')')).findSome? (fun i3 =>
        (tryOpt s i3 sepChar2).findSome? (fun i4 =>
          if digitsAt s i4 3 then
            (tryOpt s (i4 + 3) sepChar2).findSome? (fun i6 =>
              if digitsAt s i6 4 then some (pySlice s i (i6 + 4)) else none)
          else none))
    else none)

def findP2 (s : Str) : Option Str :=
  (List.range (s.length + 1)).findSome? (fun i => tryP2At s i)

structure PhoneResult where
  mobile : Option Str
  mobile_country_code : Option Str
  mobile_national_number : Option Str
deriving DecidableEq

/-- The national-number post-processing of `_extract_phone`: strip all
non-digits from the raw national group; if the digits redundantly start
with the country code, trim that code once. -/
def nationalFrom (cc raw : Str) : Str :=
  let d := raw.filter Char.isDigit
  if cc ≠ [] ∧ cc.isPrefixOf d then d.drop cc.length else d

/-- `main._extract_phone`: tab/CR cleanup, then the international
pattern, then the North-American fallback. -/
def extract_phone (text : Str) : PhoneResult :=
  let cleaned := text.map fixTabCr
  match findP1 cleaned with
  | some ccRaw =>
    let national := nationalFrom ccRaw.1 ccRaw.2
    ⟨some ('+' :: ccRaw.1 ++ national), some ('+' :: ccRaw.1),
      if national = [] then none else some national⟩
  | none =>
    match findP2 cleaned with
    | some raw =>
      let national := raw.filter Char.isDigit
      ⟨some national, none, if national = [] then none else some national⟩
    | none => ⟨none, none, none⟩

/-! ## Experience extraction (`main._extract_experience` and its use in
`main.parse_resume_text`)

The heading regexes use MULTILINE `^` (start of text or right after a
newline) and a trailing `\b`; IGNORECASE is modelled by scanning the
lowercased text.  `dateutil` parsing with default `2000-01-01` reduces,
for the three date shapes the patterns produce, to a (year, month)
pair with day 1; an unparseable date (month outside 1..12, year 0)
makes the range contribute nothing, exactly like the source's
`parse_dt` returning `None`.  "present"/"current" resolve to the
ambient current date, passed as the `now` parameter. -/

def headingExpAlts : List Str :=
  ["work experience".data, "professional experience".data, "experience".data,
    "employment history".data, "career history".data, "work history".data,
    "professional background".data]

def headingOtherAlts : List Str :=
  ["education".data, "academics".data, "projects".data, "skills".data,
    "certifications".data, "awards".data, "publications".data, "summary".data,
    "profile".data, "objective".data, "interests".data, "references".data,
    "contact".data, "personal".data]

/-- `\b` right after an alternative (which always ends in a letter):
end of text or a non-word character. -/
def wordBoundaryAt (s : Str) (k : Nat) : Bool :=
  match s.drop k with
  | [] => true
  | c :: _ => !isWordChar c

/-- First alternative (in source order) matching at `i` with a trailing
word boundary; returns the match end. -/
def altMatchEnd (alts : List Str) (s : Str) (i : Nat) : Option Nat :=
  alts.findSome? (fun a =>
    if occursAt a s i && wordBoundaryAt s (i + a.length) then
      some (i + a.length)
    else none)

/-- MULTILINE `^`: position 0 or right after a newline. -/
def lineStartAt (s : Str) (i : Nat) : Bool :=
  match i with
  | 0 => true
  | j + 1 => (s.drop j).head? == some '\n'

def expHeadFindFrom (lt : Str) (i : Nat) : Option (Nat × Nat) :=
  (List.range (lt.length + 1 - i)).findSome? (fun d =>
    let j := i + d
    if lineStartAt lt j then
      (altMatchEnd headingExpAlts lt j).map (fun e => (j, e))
    else none)

/-- `re.finditer(heading_exp, text, IGNORECASE | MULTILINE)`. -/
def expHeadSpansAux (lt : Str) : Nat → Nat → List (Nat × Nat)
  | 0, _ => []
  | fuel + 1, i =>
    match expHeadFindFrom lt i with
    | none => []
    | some (j, e) => (j, e) :: expHeadSpansAux lt fuel (max e (j + 1))

def expHeadSpans (lt : Str) : List (Nat × Nat) :=
  expHeadSpansAux lt (lt.length + 1) 0

/-- `re.search(heading_other, slice, IGNORECASE | MULTILINE)`: start of
the first other-section heading inside the given slice. -/
def otherHeadPos (sl : Str) : Option Nat :=
  (List.range (sl.length + 1)).findSome? (fun j =>
    if lineStartAt sl j ∧ (altMatchEnd headingOtherAlts sl j).isSome then
      some j
    else none)

/-- The experience-section blocks: each starts at its heading and ends
at the next other-section heading found after the heading match, or at
the end of the text. -/
def expBlocks (lt : Str) : List Str :=
  (expHeadSpans lt).map (fun se =>
    let endIdx :=
      match otherHeadPos (lt.drop se.2) with
      | some j => se.2 + j
      | none => lt.length
    pySlice lt se.1 endIdx)

def monthAlts : List (Str × Nat) :=
  [("jan".data, 1), ("feb".data, 2), ("mar".data, 3), ("apr".data, 4),
    ("may".data, 5), ("jun".data, 6), ("jul".data, 7), ("aug".data, 8),
    ("sep".data, 9), ("sept".data, 9), ("oct".data, 10), ("nov".data, 11),
    ("dec".data, 12)]

def wsRunLen (s : Str) (i : Nat) : Nat :=
  ((s.drop i).takeWhile isSpaceChar).length

def digitsVal (ds : Str) : Nat :=
  ds.foldl (fun a c => a * 10 + (c.toNat - 48)) 0

/-- `\d{4}` at position `i`; returns (numeric value, end position). -/
def parse4Digits (s : Str) (i : Nat) : Option (Nat × Nat) :=
  let d := (s.drop i).take 4
  if d.length = 4 && d.all Char.isDigit then some (digitsVal d, i + 4)
  else none

/-- `(jan|feb|...|dec) \s+ \d{4}` at position `i`, trying the month
alternatives in source order with full-rest backtracking; returns
(year, month, end position). -/
def parseMonthYear (s : Str) (i : Nat) : Option (Nat × Nat × Nat) :=
  monthAlts.findSome? (fun mv =>
    if occursAt mv.1 s i then
      let i1 := i + mv.1.length
      let w := wsRunLen s i1
      if w = 0 then none
      else
        match parse4Digits s (i1 + w) with
        | some ye => some (ye.1, mv.2, ye.2)
        | none => none
    else none)

/-- A parsed "from"/"to" token: a date that `dateutil` accepts, a
matched-but-unparseable date, or "present"/"current". -/
inductive DateTok where
  | onDate : Nat → Nat → DateTok
  | badDate : DateTok
  | nowTok : DateTok
deriving DecidableEq

/-- The character class of the range separator `[-–to]`. -/
def sepClassChar (c : Char) : Bool :=
  c = '-' || c = Char.ofNat 0x2013 || c = 't' || c = 'o'

/-- `\s* [-–to]+ \s*` starting at `i`: candidate continuation positions
in the order regex backtracking visits them (longest class run first,
each followed by a maximal whitespace run; the redundant `|to` branch is
subsumed by the class run of length 2). -/
def sepCandidates (s : Str) (i : Nat) : List Nat :=
  let i1 := i + wsRunLen s i
  let run := ((s.drop i1).takeWhile sepClassChar).length
  ((List.range run).map (fun d => run - d)).map (fun k =>
    i1 + k + wsRunLen s (i1 + k))

def mkDateTok (y m : Nat) : DateTok :=
  if 1 ≤ y then .onDate y m else .badDate

/-- The "to" alternation of the month-name pattern:
`month \s+ \d{4} | present | current`. -/
def parseToP1 (s : Str) (i : Nat) : Option (DateTok × Nat) :=
  match parseMonthYear s i with
  | some ymE => some (mkDateTok ymE.1 ymE.2.1, ymE.2.2)
  | none =>
    if occursAt "present".data s i then some (.nowTok, i + 7)
    else if occursAt "current".data s i then some (.nowTok, i + 7)
    else none

/-- The "to" alternation of the bare-year pattern:
`\d{4} | present | current`. -/
def parseToP2 (s : Str) (i : Nat) : Option (DateTok × Nat) :=
  match parse4Digits s i with
  | some ye => some (mkDateTok ye.1 1, ye.2)
  | none =>
    if occursAt "present".data s i then some (.nowTok, i + 7)
    else if occursAt "current".data s i then some (.nowTok, i + 7)
    else none

/-- `\d{1,2}/\d{4}` at position `i` (two digits tried first, then
one); a month outside 1..12 parses as a bad date (dateutil raises). -/
def parseMYSlash (s : Str) (i : Nat) : Option (DateTok × Nat) :=
  let tryLen : Nat → Option (DateTok × Nat) := fun n =>
    let d := (s.drop i).take n
    if d.length = n && d.all Char.isDigit then
      match (s.drop (i + n)).head? with
      | some c =>
        if c = '/' then
          match parse4Digits s (i + n + 1) with
          | some ye =>
            let m := digitsVal d
            some (if 1 ≤ m ∧ m ≤ 12 ∧ 1 ≤ ye.1 then .onDate ye.1 m else .badDate, ye.2)
          | none => none
        else none
      | none => none
    else none
  match tryLen 2 with
  | some r => some r
  | none => tryLen 1

/-- The "to" alternation of the numeric pattern:
`\d{1,2}/\d{4} | present | current`. -/
def parseToP3 (s : Str) (i : Nat) : Option (DateTok × Nat) :=
  match parseMYSlash s i with
  | some r => some r
  | none =>
    if occursAt "present".data s i then some (.nowTok, i + 7)
    else if occursAt "current".data s i then some (.nowTok, i + 7)
    else none

/-- Attempt of the month-name range pattern at position `i`; returns
(match end, from token, to token). -/
def p1At (s : Str) (i : Nat) : Option (Nat × DateTok × DateTok) :=
  match parseMonthYear s i with
  | none => none
  | some ymE =>
    (sepCandidates s ymE.2.2).findSome? (fun j =>
      (parseToP1 s j).map (fun te => (te.2, mkDateTok ymE.1 ymE.2.1, te.1)))

/-- Attempt of the bare-year range pattern at position `i`. -/
def p2At (s : Str) (i : Nat) : Option (Nat × DateTok × DateTok) :=
  match parse4Digits s i with
  | none => none
  | some ye =>
    (sepCandidates s ye.2).findSome? (fun j =>
      (parseToP2 s j).map (fun te => (te.2, mkDateTok ye.1 1, te.1)))

/-- Attempt of the numeric month/year range pattern at position `i`. -/
def p3At (s : Str) (i : Nat) : Option (Nat × DateTok × DateTok) :=
  match parseMYSlash s i with
  | none => none
  | some fe =>
    (sepCandidates s fe.2).findSome? (fun j =>
      (parseToP3 s j).map (fun te => (te.2, fe.1, te.1)))

def rangeFindFrom (pAt : Str → Nat → Option (Nat × DateTok × DateTok)) (s : Str) (i : Nat) :
    Option (Nat × Nat × DateTok × DateTok) :=
  (List.range (s.length + 1 - i)).findSome? (fun d =>
    (pAt s (i + d)).map (fun r => (i + d, r)))

/-- `re.finditer` for one of the three range patterns over a block. -/
def rangeScanAux (pAt : Str → Nat → Option (Nat × DateTok × DateTok)) (s : Str) :
    Nat → Nat → List (DateTok × DateTok)
  | 0, _ => []
  | fuel + 1, i =>
    match rangeFindFrom pAt s i with
    | none => []
    | some (j, e, f, t) => (f, t) :: rangeScanAux pAt s fuel (max e (j + 1))

def rangeScan (pAt : Str → Nat → Option (Nat × DateTok × DateTok)) (s : Str) :
    List (DateTok × DateTok) :=
  rangeScanAux pAt s (s.length + 1) 0

def tokDate (now : Nat × Nat) : DateTok → Option (Nat × Nat)
  | .onDate y m => some (y, m)
  | .badDate => none
  | .nowTok => some now

def dateLt (a b : Nat × Nat) : Bool :=
  a.1 < b.1 || (a.1 = b.1 && a.2 < b.2)

/-- The month contribution of one matched range: `(to - from)` in
months when both endpoints parse and `to > from`, else 0. -/
def rangeMonths (now : Nat × Nat) (ft : DateTok × DateTok) : Nat :=
  match tokDate now ft.1, tokDate now ft.2 with
  | some df, some dt =>
    if dateLt df dt then (dt.1 * 12 + dt.2) - (df.1 * 12 + df.2) else 0
  | _, _ => 0

/-- Total months summed over the three pattern families in one block. -/
def blockMonths (now : Nat × Nat) (b : Str) : Nat :=
  ((rangeScan p1At b).map (rangeMonths now)).sum +
    ((rangeScan p2At b).map (rangeMonths now)).sum +
    ((rangeScan p3At b).map (rangeMonths now)).sum

/-- The fallback phrase `(\d{1,2})\+?\s+years?\s+of\s+experience` at
position `i` of the lowered text. -/
def yearsPhraseAt (s : Str) (i : Nat) : Option Nat :=
  let tryLen : Nat → Option Nat := fun n =>
    let d := (s.drop i).take n
    if d.length = n && d.all Char.isDigit then
      let i1 := i + n
      let i2 :=
        match (s.drop i1).head? with
        | some c => if c = '+' then i1 + 1 else i1
        | none => i1
      let w := wsRunLen s i2
      if w = 0 then none
      else
        let i3 := i2 + w
        if occursAt "year".data s i3 then
          let afterYear := i3 + 4
          let cand : List Nat :=
            match (s.drop afterYear).head? with
            | some c => if c = 's' then [afterYear + 1, afterYear] else [afterYear]
            | none => [afterYear]
          cand.findSome? (fun i4 =>
            let w2 := wsRunLen s i4
            if w2 = 0 then none
            else
              let i5 := i4 + w2
              if occursAt "of".data s i5 then
                let w3 := wsRunLen s (i5 + 2)
                if w3 = 0 then none
                else if occursAt "experience".data s (i5 + 2 + w3) then
                  some (digitsVal d)
                else none
              else none)
        else none
    else none
  match tryLen 2 with
  | some r => some r
  | none => tryLen 1

def yearsPhrase (s : Str) : Option Nat :=
  (List.range (s.length + 1)).findSome? (fun i => yearsPhraseAt s i)

structure ExpResult where
  years : Option Nat
  has_section : Bool
deriving DecidableEq

/-- `main._extract_experience`: sum date ranges inside experience
blocks; floor months to years when positive; otherwise, with a section
present, fall back to the "N years of experience" phrase; report the
years as absent (`none`) when nothing was determined. -/
def extract_experience (now : Nat × Nat) (text : Str) : ExpResult :=
  let lt := lowerT text
  let spans := expHeadSpans lt
  let total := ((expBlocks lt).map (blockMonths now)).sum
  let hasSec := !spans.isEmpty
  let yearsFromDates := if total > 0 then some (total / 12) else none
  let years :=
    match yearsFromDates with
    | some y => some y
    | none => if hasSec then yearsPhrase lt else none
  ⟨years, hasSec⟩

/-- The experience assignment of `main.parse_resume_text`: the field
`no_of_years_experience` is set only when `exp["years"]` is truthy
(both `None` and `0` leave it absent). -/
def noOfYearsExperience (now : Nat × Nat) (text : Str) : Option Nat :=
  match (extract_experience now text).years with
  | some y => if y ≠ 0 then some y else none
  | none => none

def headNonspace (l : Str) : Bool :=
  match l.head? with
  | none => true
  | some d => !isSpaceChar d

/-- The shape of a string left unchanged by whitespace collapsing:
every whitespace character is a plain space, and no space is followed
by whitespace. -/
def wsCanon : Str → Bool
  | [] => true
  | c :: rest =>
    (!isSpaceChar c || (decide (c = ' ') && headNonspace rest)) && wsCanon rest

/-! ## Concrete instantiation data (used by witnesses and
counterexamples) -/

/-- A rule whose pattern compiles and never raises: missing pattern,
empty pattern, or a parseable (literal-fragment) pattern. -/
def ruleOk (r : GrammarRule) : Bool :=
  match r.pattern with
  | none => true
  | some p => p.isEmpty || isLiteralRe p

deriving instance DecidableEq for Except

def cxText50 : Str := (List.replicate 50 "typo ".data).flatten

def cxRule50 : GrammarRule := ⟨some "typo".data, some "Misspelling".data, none⟩

def cxRules50 : List GrammarRule := [cxRule50]

/-- A grammar configuration whose first rule has an unparseable pattern
(an unbalanced parenthesis) and whose second rule is fine and violated
by the sample text. -/
def cxBadLang : LangCfg :=
  ⟨[], [⟨some "teh(".data, none, none⟩, ⟨some "teh".data, none, none⟩], []⟩

def emptyProf : ProfCfg := ⟨[], [], [], [], []⟩

def emptyLang : LangCfg := ⟨[], [], []⟩

/-- The report `ats_score` produces for empty text under empty
configuration. -/
def emptyReport : Report :=
  { ats_score := 10
    breakdown :=
      [("keywords".data, 0), ("industry_keywords".data, 0),
        ("action_verbs".data, 0), ("quantification".data, 0),
        ("readability".data, 10), ("buzzwords".data, 0)]
    keyword_matched := []
    keyword_missing := []
    industry_matched := []
    industry_missing := []
    action_verbs_found := []
    quantification_found := []
    grammar_issues := []
    readability_report := ⟨0, 1, 0, 0, []⟩
    weak_language_found := []
    industry_buzzwords_found := [] }

def cxExpText : Str := "work experience\njan 2020 - jun 2020".data

def cxNoHeadText : Str := "hello world".data

def now0 : Nat × Nat := (2024, 1)

/-! ## Theorems -/

theorem count_matches_eq_filter (text : Str) (terms : List Str) :
    count_matches text terms =
      (terms.filter (fun t => bsearch t text),
        terms.filter (fun t => !bsearch t text)) := by
  induction terms with
  | nil => rfl
  | cons t ts ih =>
    simp only [count_matches, ih, List.filter_cons]
    cases h : bsearch t text <;> simp [h]

theorem occursAt_le {t s : Str} {i : Nat} (h : occursAt t s i = true) :
    t.length ≤ s.length - i := by
  unfold occursAt at h
  have hlen : ((s.drop i).take t.length).length = t.length := by
    rw [of_decide_eq_true h]
  rw [List.length_take, List.length_drop] at hlen
  omega

theorem rightBEnd_isSome_iff {s : Str} {k : Nat} (hk : k ≤ s.length) :
    (rightBEnd s k).isSome = true ↔
      (k = s.length ∨ isWordChar ((s.drop k).headD ' ') = false) := by
  unfold rightBEnd
  cases hd : s.drop k with
  | nil =>
    have : k = s.length := by
      have := List.length_drop k s
      rw [hd] at this
      simp at this
      omega
    simp [this]
  | cons c rest =>
    have hne : k ≠ s.length := by
      intro he
      rw [he, List.drop_length] at hd
      exact List.noConfusion hd
    cases hw : isWordChar c <;> simp [hd, hw, hne]

theorem drop_eq_cons_of_lt {s : Str} {i : Nat} (h : i < s.length) :
    ∃ c rest, s.drop i = c :: rest := by
  cases hq : s.drop i with
  | nil =>
    have := List.length_drop i s
    rw [hq] at this
    simp at this
    omega
  | cons c rest => exact ⟨c, rest, rfl⟩

theorem bmatchAtW_isSome_iff (t s : Str) (i : Nat) :
    (bmatchAtW t s i).isSome = true ↔
      ∃ c rest, s.drop i = c :: rest ∧ isWordChar c = false ∧
        occursAt t s (i + 1) = true ∧
        (rightBEnd s (i + 1 + t.length)).isSome = true := by
  unfold bmatchAtW
  cases hd : s.drop i with
  | nil => simp
  | cons c rest =>
    dsimp only
    by_cases hb : (!isWordChar c && occursAt t s (i + 1)) = true
    · rw [if_pos hb]
      rw [Bool.and_eq_true, Bool.not_eq_true'] at hb
      simp [hb.1, hb.2]
    · rw [if_neg hb]
      rw [Bool.and_eq_true, Bool.not_eq_true'] at hb
      simp only [Option.isSome_none, Bool.false_eq_true, false_iff]
      rintro ⟨c2, r2, he, hw2, ho2, -⟩
      injection he with h1 h2
      subst h1
      exact hb ⟨hw2, ho2⟩

theorem bmatchAt_isSome_iff (t s : Str) (i : Nat) :
    (bmatchAt t s i).isSome = true ↔
      ((i = 0 ∧ occursAt t s 0 = true ∧ (rightBEnd s t.length).isSome = true) ∨
        (bmatchAtW t s i).isSome = true) := by
  unfold bmatchAt
  by_cases hc : (decide (i = 0) && occursAt t s 0) = true
  · rw [if_pos hc]
    rw [Bool.and_eq_true, decide_eq_true_eq] at hc
    cases he : rightBEnd s t.length with
    | none => simp [he, hc.1, hc.2]
    | some e => simp [he, hc.1, hc.2]
  · rw [if_neg hc]
    rw [Bool.and_eq_true, decide_eq_true_eq] at hc
    constructor
    · intro h; exact Or.inr h
    · rintro (⟨h0, ho, -⟩ | h)
      · exact absurd ⟨h0, ho⟩ hc
      · exact h

theorem bsearch_iff_boundary (t s : Str) :
    bsearch t s = true ↔ boundaryOccurs t s := by
  constructor
  · intro h
    unfold bsearch at h
    rw [List.any_eq_true] at h
    obtain ⟨i, hi, hm⟩ := h
    rw [List.mem_range] at hi
    rcases (bmatchAt_isSome_iff t s i).mp hm with ⟨h0, hocc, hre⟩ | hw
    · have hlen := occursAt_le hocc
      refine ⟨0, by omega, hocc, Or.inl rfl, ?_⟩
      rcases (rightBEnd_isSome_iff (k := t.length) (by omega)).mp hre with h2 | h2
      · left; omega
      · right; simpa using h2
    · obtain ⟨c, rest, hd, hcw, hocc, hre⟩ := (bmatchAtW_isSome_iff t s i).mp hw
      have hlt : i < s.length := by
        have := List.length_drop i s
        rw [hd] at this
        simp at this
        omega
      have hle : i + 1 + t.length ≤ s.length := by
        have := occursAt_le hocc
        omega
      refine ⟨i + 1, by omega, hocc, ?_, ?_⟩
      · right
        simp only [Nat.add_sub_cancel, hd, List.headD_cons]
        exact hcw
      · rcases (rightBEnd_isSome_iff hle).mp hre with h2 | h2
        · left; omega
        · right; simpa using h2
  · rintro ⟨j, hj, hocc, hleft, hright⟩
    unfold bsearch
    rw [List.any_eq_true]
    have hjle : j + t.length ≤ s.length := by
      have := occursAt_le hocc
      omega
    have hre : (rightBEnd s (j + t.length)).isSome = true := by
      rw [rightBEnd_isSome_iff hjle]
      exact hright
    rcases j with _ | j'
    · refine ⟨0, by rw [List.mem_range]; omega, ?_⟩
      rw [bmatchAt_isSome_iff]
      left
      refine ⟨rfl, hocc, ?_⟩
      simpa using hre
    · rcases hleft with h0 | hw
      · exact absurd h0 (by omega)
      · refine ⟨j', by rw [List.mem_range]; omega, ?_⟩
        rw [bmatchAt_isSome_iff]
        right
        rw [bmatchAtW_isSome_iff]
        obtain ⟨c, rest, hd⟩ := drop_eq_cons_of_lt (s := s) (i := j') (by omega)
        refine ⟨c, rest, hd, ?_, hocc, hre⟩
        simp only [Nat.add_sub_cancel, hd, List.headD_cons] at hw
        exact hw

/-- Claim C2, counterexample: the term "java" occurs as a plain
substring of the text "javascript", yet `count_matches` reports it
missing — the matching of `count_matches` is not plain substring
containment. -/
theorem count_matches_substring_cx :
    specSubstrContains "java".data "javascript".data = true ∧
    count_matches "javascript".data ["java".data] = ([], ["java".data]) := by
  constructor
  · decide
  · decide

/-- Claim C2, amended: the matching used for general and industry
keywords (`count_matches`) is word-boundary matching, exactly like the
weak-language variant: a term is reported as matched precisely when it
occurs in the text with a non-word character (or a text edge) on both
sides; in particular "java" does not match inside "javascript". -/
theorem count_matches_word_boundary (text : Str) (terms : List Str) (t : Str) :
    t ∈ (count_matches text terms).1 ↔ (t ∈ terms ∧ boundaryOccurs t text) := by
  rw [count_matches_eq_filter]
  simp only [List.mem_filter]
  exact and_congr_right (fun _ => bsearch_iff_boundary t text)

/-- Claim C3: for a duplicate-free term list, `count_matches` returns
duplicate-free matched and missing lists that are disjoint and whose
union is the input term set. -/
theorem count_matches_partition (text : Str) (terms : List Str) (h : terms.Nodup) :
    (count_matches text terms).1.Nodup ∧ (count_matches text terms).2.Nodup ∧
      (∀ t, (t ∈ (count_matches text terms).1 ∨ t ∈ (count_matches text terms).2) ↔
        t ∈ terms) ∧
      (∀ t, ¬(t ∈ (count_matches text terms).1 ∧ t ∈ (count_matches text terms).2)) := by
  rw [count_matches_eq_filter]
  refine ⟨h.filter _, h.filter _, ?_, ?_⟩
  · intro t
    simp only [List.mem_filter]
    constructor
    · rintro (⟨ht, -⟩ | ⟨ht, -⟩) <;> exact ht
    · intro ht
      cases hb : bsearch t text
      · right; simp [ht, hb]
      · left; simp [ht, hb]
  · intro t
    simp only [List.mem_filter]
    rintro ⟨⟨-, h1⟩, ⟨-, h2⟩⟩
    simp [h1] at h2

/-- Witness for C3 at a concrete duplicate-free term list. -/
theorem count_matches_partition_w :
    (["go".data, "java".data] : List Str).Nodup ∧
      ((count_matches "uses go daily".data ["go".data, "java".data]).1.Nodup ∧
        (count_matches "uses go daily".data ["go".data, "java".data]).2.Nodup ∧
        (∀ t, (t ∈ (count_matches "uses go daily".data ["go".data, "java".data]).1 ∨
          t ∈ (count_matches "uses go daily".data ["go".data, "java".data]).2) ↔
            t ∈ (["go".data, "java".data] : List Str)) ∧
        (∀ t, ¬(t ∈ (count_matches "uses go daily".data ["go".data, "java".data]).1 ∧
          t ∈ (count_matches "uses go daily".data ["go".data, "java".data]).2))) :=
  ⟨by decide, count_matches_partition "uses go daily".data ["go".data, "java".data] (by decide)⟩


theorem normChar_space : normChar ' ' = ' ' := by decide

theorem normChar_allowed_or_space (c : Char) :
    normChar c = ' ' ∨ allowedChar (normChar c) = true := by
  unfold normChar dropDisallowed
  by_cases h : allowedChar (fixDash (fixTabCr (pyLower c))) = true
  · right
    rw [if_pos h]
    exact h
  · left
    rw [if_neg h]

theorem normChar_fixed_of_allowed (c : Char) (ha : allowedChar c = true)
    (hs : isSpaceChar c = false) : normChar c = c := by
  have hn : (97 ≤ c.toNat ∧ c.toNat ≤ 122) ∨ (48 ≤ c.toNat ∧ c.toNat ≤ 57) ∨
      c.toNat = 37 ∨ c.toNat = 36 ∨ c.toNat = 43 ∨ c.toNat = 45 ∨ c.toNat = 47 ∨
      c.toNat = 46 ∨ c.toNat = 44 ∨ c.toNat = 40 ∨ c.toNat = 41 := by
    unfold allowedChar at ha
    rw [hs] at ha
    simp only [Bool.or_false, Bool.or_eq_true, Bool.and_eq_true,
      decide_eq_true_eq] at ha
    tauto
  have hb : (97 ≤ c.toNat ∧ c.toNat ≤ 122) ∨ (36 ≤ c.toNat ∧ c.toNat ≤ 57) := by
    rcases hn with h | h | h | h | h | h | h | h | h | h | h <;> omega
  have h1 : pyLower c = c := by
    unfold pyLower
    rw [if_neg (by
      simp only [Bool.and_eq_true, decide_eq_true_eq]
      rcases hb with hb | hb <;> omega)]
  have h2 : fixTabCr c = c := by
    unfold fixTabCr
    rw [if_neg (by
      simp only [Bool.or_eq_true, decide_eq_true_eq]
      rcases hb with hb | hb <;> omega)]
  have h3 : fixDash c = c := by
    unfold fixDash
    rw [if_neg (by
      simp only [Bool.or_eq_true, decide_eq_true_eq]
      rcases hb with hb | hb <;> omega)]
  unfold normChar
  rw [h1, h2, h3]
  unfold dropDisallowed
  rw [if_pos ha]

theorem mem_collapseWs {l : Str} {c : Char} (h : c ∈ collapseWs l) :
    c = ' ' ∨ (c ∈ l ∧ isSpaceChar c = false) := by
  induction l using collapseWs.induct with
  | case1 => simp [collapseWs] at h
  | case2 d hs =>
    unfold collapseWs at h
    rw [if_pos hs] at h
    left
    simpa using h
  | case3 d hs =>
    unfold collapseWs at h
    rw [if_neg hs] at h
    right
    simp only [List.mem_singleton] at h
    subst h
    exact ⟨List.mem_singleton_self c, by simpa using hs⟩
  | case4 d e rest hb ih =>
    unfold collapseWs at h
    rw [if_pos hb] at h
    rcases ih h with h1 | ⟨h1, h2⟩
    · left; exact h1
    · right; exact ⟨List.mem_cons_of_mem d h1, h2⟩
  | case5 d e rest hb ih =>
    unfold collapseWs at h
    rw [if_neg hb] at h
    rcases List.mem_cons.mp h with h1 | h1
    · by_cases hs : isSpaceChar d = true
      · rw [if_pos hs] at h1; left; exact h1
      · rw [if_neg hs] at h1
        right
        subst h1
        exact ⟨List.mem_cons_self c _, by simpa using hs⟩
    · rcases ih h1 with h2 | ⟨h2, h3⟩
      · left; exact h2
      · right; exact ⟨List.mem_cons_of_mem d h2, h3⟩

theorem headNonspace_of_head {l : Str} {d : Char} (h : l.head? = some d) :
    headNonspace l = !isSpaceChar d := by
  unfold headNonspace
  rw [h]

theorem head_collapseWs {d : Char} (rest : Str) (hd : isSpaceChar d = false) :
    (collapseWs (d :: rest)).head? = some d := by
  cases rest with
  | nil =>
    unfold collapseWs
    rw [if_neg (by simp [hd])]
    rfl
  | cons e r =>
    unfold collapseWs
    rw [if_neg (by simp [hd]), if_neg (by simp [hd])]
    rfl

theorem wsCanon_collapseWs (l : Str) : wsCanon (collapseWs l) = true := by
  induction l using collapseWs.induct with
  | case1 => rfl
  | case2 d hs =>
    unfold collapseWs
    rw [if_pos hs]
    decide
  | case3 d hs =>
    unfold collapseWs
    rw [if_neg hs]
    unfold wsCanon wsCanon
    simp only [Bool.not_eq_true] at hs
    simp [hs, headNonspace]
  | case4 d e rest hb ih =>
    unfold collapseWs
    rw [if_pos hb]
    exact ih
  | case5 d e rest hb ih =>
    unfold collapseWs
    rw [if_neg hb]
    by_cases hs : isSpaceChar d = true
    · have he : isSpaceChar e = false := by
        cases hq : isSpaceChar e
        · rfl
        · exact absurd (by rw [hs, hq]; rfl) hb
      rw [if_pos hs]
      unfold wsCanon
      rw [ih, headNonspace_of_head (head_collapseWs rest he), he]
      decide
    · rw [if_neg hs]
      unfold wsCanon
      rw [ih]
      simp only [Bool.not_eq_true] at hs
      simp [hs]

theorem collapseWs_of_wsCanon {l : Str} (h : wsCanon l = true) :
    collapseWs l = l := by
  induction l using collapseWs.induct with
  | case1 => rfl
  | case2 d hs =>
    unfold wsCanon wsCanon at h
    unfold collapseWs
    rw [if_pos hs]
    rw [hs] at h
    simp only [Bool.not_true, Bool.false_or, Bool.and_true, Bool.and_eq_true,
      decide_eq_true_eq] at h
    rw [h.1]
  | case3 d hs =>
    unfold collapseWs
    rw [if_neg hs]
  | case4 d e rest hb ih =>
    exfalso
    rw [Bool.and_eq_true] at hb
    unfold wsCanon at h
    rcases Bool.and_eq_true _ _ |>.mp h with ⟨h1, -⟩
    rw [hb.1] at h1
    simp only [Bool.not_true, Bool.false_or, Bool.and_eq_true,
      decide_eq_true_eq] at h1
    have := h1.2
    unfold headNonspace at this
    simp only [List.head?_cons] at this
    rw [hb.2] at this
    exact Bool.noConfusion this
  | case5 d e rest hb ih =>
    unfold wsCanon at h
    rcases Bool.and_eq_true _ _ |>.mp h with ⟨h1, h2⟩
    unfold collapseWs
    rw [if_neg hb]
    by_cases hs : isSpaceChar d = true
    · rw [hs] at h1
      simp only [Bool.not_true, Bool.false_or, Bool.and_eq_true,
        decide_eq_true_eq] at h1
      rw [if_pos hs, ih h2, h1.1]
    · rw [if_neg hs, ih h2]

theorem mem_dropTrailingWs {l : Str} {c : Char} (h : c ∈ dropTrailingWs l) :
    c ∈ l := by
  induction l with
  | nil => simp [dropTrailingWs] at h
  | cons d rest ih =>
    unfold dropTrailingWs at h
    cases hq : dropTrailingWs rest with
    | nil =>
      rw [hq] at h
      by_cases hs : isSpaceChar d = true
      · rw [if_pos hs] at h; simp at h
      · rw [if_neg hs] at h
        simp only [List.mem_singleton] at h
        subst h
        exact List.mem_cons_self c rest
    | cons r rs =>
      rw [hq] at h
      rcases List.mem_cons.mp h with h1 | h1
      · subst h1; exact List.mem_cons_self c rest
      · exact List.mem_cons_of_mem d (ih (by rw [hq]; exact h1))

theorem wsCanon_tail {c : Char} {l : Str} (h : wsCanon (c :: l) = true) :
    wsCanon l = true :=
  (Bool.and_eq_true _ _ |>.mp h).2

theorem wsCanon_dropWhileWs {l : Str} (h : wsCanon l = true) :
    wsCanon (l.dropWhile isSpaceChar) = true := by
  induction l with
  | nil => exact h
  | cons d rest ih =>
    rw [List.dropWhile_cons]
    by_cases hs : isSpaceChar d = true
    · rw [if_pos hs]
      exact ih (wsCanon_tail h)
    · rw [if_neg hs]
      exact h

theorem head_dropTrailingWs {l : Str} {r : Char} {rs : Str}
    (h : dropTrailingWs l = r :: rs) : l.head? = some r := by
  cases l with
  | nil => exact absurd h (by simp [dropTrailingWs])
  | cons d rest =>
    unfold dropTrailingWs at h
    cases hq : dropTrailingWs rest with
    | nil =>
      rw [hq] at h
      by_cases hs : isSpaceChar d = true
      · rw [if_pos hs] at h
        exact absurd h (by simp)
      · rw [if_neg hs] at h
        injection h with h1 h2
        rw [h1]
        rfl
    | cons x xs =>
      rw [hq] at h
      injection h with h1 h2
      rw [h1]
      rfl

theorem wsCanon_dropTrailingWs {l : Str} (h : wsCanon l = true) :
    wsCanon (dropTrailingWs l) = true := by
  induction l with
  | nil => exact h
  | cons d rest ih =>
    unfold dropTrailingWs
    cases hq : dropTrailingWs rest with
    | nil =>
      by_cases hs : isSpaceChar d = true
      · rw [if_pos hs]; rfl
      · rw [if_neg hs]
        unfold wsCanon wsCanon
        simp [hs]
    | cons r rs =>
      unfold wsCanon at h ⊢
      rcases Bool.and_eq_true _ _ |>.mp h with ⟨h1, h2⟩
      have ih2 := ih h2
      rw [hq] at ih2
      rw [ih2, Bool.and_true]
      by_cases hs : isSpaceChar d = true
      · rw [hs] at h1 ⊢
        simp only [Bool.not_true, Bool.false_or, Bool.and_eq_true,
          decide_eq_true_eq] at h1 ⊢
        refine ⟨h1.1, ?_⟩
        have hhd := head_dropTrailingWs hq
        have h3 := h1.2
        rw [headNonspace_of_head hhd] at h3
        rw [headNonspace_of_head (l := r :: rs) rfl]
        exact h3
      · simp [hs]

theorem dropTrailingWs_idem (l : Str) :
    dropTrailingWs (dropTrailingWs l) = dropTrailingWs l := by
  induction l with
  | nil => rfl
  | cons d rest ih =>
    cases hq : dropTrailingWs rest with
    | nil =>
      by_cases hs : isSpaceChar d = true
      · have hstep : dropTrailingWs (d :: rest) = [] := by
          unfold dropTrailingWs
          rw [hq, if_pos hs]
        rw [hstep]
        rfl
      · have hstep : dropTrailingWs (d :: rest) = [d] := by
          unfold dropTrailingWs
          rw [hq, if_neg hs]
        rw [hstep]
        have hstep2 : dropTrailingWs [d] = [d] := by
          simp [dropTrailingWs, hs]
        rw [hstep2]
    | cons r rs =>
      have hstep : dropTrailingWs (d :: rest) = d :: r :: rs := by
        unfold dropTrailingWs
        rw [hq]
      rw [hstep]
      have hx : dropTrailingWs (r :: rs) = r :: rs := by
        rw [← hq]
        exact ih
      have hstep2 : dropTrailingWs (d :: r :: rs) = d :: r :: rs := by
        unfold dropTrailingWs
        rw [hx]
      exact hstep2

theorem map_eq_self_of_fixed {l : Str} {f : Char → Char}
    (h : ∀ c, c ∈ l → f c = c) : l.map f = l := by
  induction l with
  | nil => rfl
  | cons c rest ih =>
    rw [List.map_cons, h c (List.mem_cons_self c rest),
      ih (fun d hd => h d (List.mem_cons_of_mem c hd))]

/-- Claim C6: `normalize` is total (a total Lean function by
construction) and idempotent: normalizing twice equals normalizing
once, for every input string. -/
theorem normalize_idem (text : Str) :
    normalize (normalize text) = normalize text := by
  unfold normalize stripWs
  set M := text.map normChar with hM
  set out := dropTrailingWs ((collapseWs M).dropWhile isSpaceChar) with hout
  have hmemout : ∀ c, c ∈ out → c ∈ collapseWs M := by
    intro c hc
    have h1 := mem_dropTrailingWs hc
    exact (List.dropWhile_sublist (l := collapseWs M) isSpaceChar).subset h1
  have hfix : ∀ c, c ∈ out → normChar c = c := by
    intro c hc
    rcases mem_collapseWs (hmemout c hc) with h1 | ⟨h1, h2⟩
    · rw [h1]
      exact normChar_space
    · obtain ⟨c0, -, hc0⟩ := List.mem_map.mp h1
      rcases normChar_allowed_or_space c0 with h3 | h3
      · rw [hc0] at h3
        subst h3
        exact absurd h2 (by decide)
      · rw [hc0] at h3
        exact normChar_fixed_of_allowed c h3 h2
  have hcanon : wsCanon out = true := by
    rw [hout]
    exact wsCanon_dropTrailingWs (wsCanon_dropWhileWs (wsCanon_collapseWs M))
  have hmap : out.map normChar = out := map_eq_self_of_fixed hfix
  rw [hmap, collapseWs_of_wsCanon hcanon]
  have hdw : out.dropWhile isSpaceChar = out := by
    cases hq : out with
    | nil => rfl
    | cons c rest =>
      rw [List.dropWhile_cons]
      have hh : ((collapseWs M).dropWhile isSpaceChar).head? = some c := by
        apply head_dropTrailingWs (l := (collapseWs M).dropWhile isSpaceChar)
        rw [← hout, hq]
      have h5 := List.head?_dropWhile_not isSpaceChar (collapseWs M)
      rw [hh] at h5
      rw [if_neg (by rw [h5]; simp)]
  rw [hdw, hout, dropTrailingWs_idem]

/-- Claim C7, counterexample: with a configured word-count band
[200, 1200] and an input of word count 1 (outside the band),
`calc_readability` returns an empty warnings list — no word-count
warning is ever emitted. -/
theorem calc_readability_wordcount_cx :
    (calc_readability "hi".data
      [("min_word_count".data, 200), ("max_word_count".data, 1200)]).warnings = [] ∧
    (calc_readability "hi".data
      [("min_word_count".data, 200), ("max_word_count".data, 1200)]).word_count = 1 ∧
    ((1 : ℚ) < cfgGetQ
      [("min_word_count".data, 200), ("max_word_count".data, 1200)]
      "min_word_count".data 0) := by
  refine ⟨by decide, by decide, by decide⟩

/-- Claim C7, amended: `calc_readability` emits the average-sentence-
length warning exactly when the average exceeds the configured ceiling
and the complex-word warning exactly when the ratio exceeds its
configured ceiling, and these are the only two warnings it can emit —
the word count is reported but never checked against any band. -/
theorem calc_readability_warnings (text : Str) (cfg : List (Str × ℚ)) :
    (msgAvgSentence ∈ (calc_readability text cfg).warnings ↔
      (calc_readability text cfg).avg_sentence_length >
        cfgGetQ cfg "max_sentence_length".data 24) ∧
    (msgComplexWords ∈ (calc_readability text cfg).warnings ↔
      (calc_readability text cfg).complexShareQ >
        cfgGetQ cfg "max_complex_ratio".data (mkRat 15 100)) ∧
    (calc_readability text cfg).warnings.all
      (fun w => w == msgAvgSentence || w == msgComplexWords) = true := by
  have hne : msgAvgSentence ≠ msgComplexWords := by decide
  unfold calc_readability
  by_cases h1 : mkRat ((alphaWords text).length : Int)
      (max 1 ((sentSplit text).filter
        (fun s => s.any (fun c => !isSpaceChar c))).length) >
      cfgGetQ cfg "max_sentence_length".data 24 <;>
    by_cases h2 : mkRat (((alphaWords text).filter
        (fun w => (w.length : ℚ) ≥ cfgGetQ cfg "complex_word_min_len".data 7)).length : Int)
        (max 1 (alphaWords text).length) >
        cfgGetQ cfg "max_complex_ratio".data (mkRat 15 100) <;>
    simp [h1, h2, hne, Ne.symm hne]

theorem grammarScanE_ok_eq {text : Str} {rules : List GrammarRule} {L : List Issue}
    (h : grammarScanE text rules = .ok L) :
    L = rules.filterMap (grammarIssueOf text) := by
  induction rules generalizing L with
  | nil =>
    simp only [grammarScanE] at h
    injection h with h1
    rw [← h1]
    rfl
  | cons r rs ih =>
    rw [List.filterMap_cons]
    unfold grammarScanE at h
    cases ha : applyRule text r with
    | error e =>
      rw [ha] at h
      exact absurd h (by simp)
    | ok o =>
      rw [ha] at h
      have hio : grammarIssueOf text r = o := by
        unfold grammarIssueOf
        rw [ha]
      rw [hio]
      cases o with
      | none => exact ih h
      | some iss =>
        cases hg : grammarScanE text rs with
        | error e =>
          rw [hg] at h
          exact absurd h (by simp)
        | ok l =>
          rw [hg] at h
          injection h with h1
          rw [← h1, ih hg]

/-- Claim C4: under an exception-free scan, the grammar engine emits
exactly one aggregated issue per violated rule (the issue list is the
`filterMap` of the per-rule results over the rules), and for a rule
whose (parseable, non-empty) pattern has `n ≥ 1` case-insensitive hits
the single issue carries `count = n` and the snippets of the first 5
hits, each snippet being the slice from 30 characters before the match
start to 30 characters after the match end — so at most 5 examples. -/
theorem grammar_rule_aggregation (text : Str) (rules : List GrammarRule)
    (L : List Issue) (r : GrammarRule) (p : Str)
    (hok : grammarScanE text rules = .ok L)
    (hr : r ∈ rules) (hp : r.pattern = some p)
    (hlit : isLiteralRe p = true) (hne : p ≠ [])
    (hhits : litFinditer (lowerT p) (lowerT text) ≠ []) :
    L = rules.filterMap (grammarIssueOf text) ∧
    grammarIssueOf text r = some
      { message := r.message.getD dGrammarMsg
        severity := r.severity.getD dSeverity
        count := (litFinditer (lowerT p) (lowerT text)).length
        examples :=
          ((litFinditer (lowerT p) (lowerT text)).take 5).map (snippetAt text) } ∧
    ({ message := r.message.getD dGrammarMsg
       severity := r.severity.getD dSeverity
       count := (litFinditer (lowerT p) (lowerT text)).length
       examples :=
         ((litFinditer (lowerT p) (lowerT text)).take 5).map (snippetAt text) } :
        Issue) ∈ L ∧
    (((litFinditer (lowerT p) (lowerT text)).take 5).map (snippetAt text)).length ≤ 5 := by
  have hiss : grammarIssueOf text r = some
      { message := r.message.getD dGrammarMsg
        severity := r.severity.getD dSeverity
        count := (litFinditer (lowerT p) (lowerT text)).length
        examples :=
          ((litFinditer (lowerT p) (lowerT text)).take 5).map (snippetAt text) } := by
    have ha : applyRule text r = .ok (some
        { message := r.message.getD dGrammarMsg
          severity := r.severity.getD dSeverity
          count := (litFinditer (lowerT p) (lowerT text)).length
          examples :=
            ((litFinditer (lowerT p) (lowerT text)).take 5).map (snippetAt text) }) := by
      unfold applyRule
      rw [hp]
      dsimp only
      rw [if_neg (by simp [List.isEmpty_iff, hne])]
      rw [if_neg (by simp [hlit])]
      rw [if_neg (by simp [List.isEmpty_iff, hhits])]
    unfold grammarIssueOf
    rw [ha]
  refine ⟨grammarScanE_ok_eq hok, hiss, ?_, ?_⟩
  · rw [grammarScanE_ok_eq hok]
    exact List.mem_filterMap.mpr ⟨r, hr, hiss⟩
  · rw [List.length_map, List.length_take]
    omega

set_option maxRecDepth 8000 in
/-- Witness for C4: a rule violated 50 times yields one aggregated
issue with count 50 and at most 5 examples. -/
theorem grammar_rule_aggregation_w :
    (grammarScanE cxText50 cxRules50 =
      .ok (cxRules50.filterMap (grammarIssueOf cxText50))) ∧
    cxRule50 ∈ cxRules50 ∧
    cxRule50.pattern = some "typo".data ∧
    isLiteralRe "typo".data = true ∧
    "typo".data ≠ ([] : Str) ∧
    (litFinditer (lowerT "typo".data) (lowerT cxText50)).length = 50 ∧
    (cxRules50.filterMap (grammarIssueOf cxText50) =
      cxRules50.filterMap (grammarIssueOf cxText50) ∧
    grammarIssueOf cxText50 cxRule50 = some
      { message := cxRule50.message.getD dGrammarMsg
        severity := cxRule50.severity.getD dSeverity
        count := (litFinditer (lowerT "typo".data) (lowerT cxText50)).length
        examples :=
          ((litFinditer (lowerT "typo".data) (lowerT cxText50)).take 5).map
            (snippetAt cxText50) } ∧
    ({ message := cxRule50.message.getD dGrammarMsg
       severity := cxRule50.severity.getD dSeverity
       count := (litFinditer (lowerT "typo".data) (lowerT cxText50)).length
       examples :=
         ((litFinditer (lowerT "typo".data) (lowerT cxText50)).take 5).map
           (snippetAt cxText50) } : Issue) ∈
      cxRules50.filterMap (grammarIssueOf cxText50) ∧
    (((litFinditer (lowerT "typo".data) (lowerT cxText50)).take 5).map
      (snippetAt cxText50)).length ≤ 5) :=
  ⟨by decide, by decide, by decide, by decide, by decide, by decide,
    grammar_rule_aggregation cxText50 cxRules50
      (cxRules50.filterMap (grammarIssueOf cxText50)) cxRule50 "typo".data
      (by decide) (by decide) (by decide) (by decide) (by decide) (by decide)⟩

theorem applyRule_isOk (text : Str) (r : GrammarRule) :
    isOkE (applyRule text r) = ruleOk r := by
  unfold applyRule ruleOk
  cases r.pattern with
  | none => rfl
  | some p =>
    dsimp only
    by_cases he : p.isEmpty = true
    · rw [if_pos he, he]
      rfl
    · rw [if_neg he]
      cases hl : isLiteralRe p with
      | false => simp [isOkE, he]
      | true =>
        rw [if_neg (by decide)]
        by_cases hh : (litFinditer (lowerT p) (lowerT text)).isEmpty = true
        · rw [if_pos hh]
          simp [isOkE, he]
        · rw [if_neg hh]
          simp [isOkE, he]

/-- Claim C9, amended: the grammar loop skips rules with a missing or
empty pattern, but it does not catch compilation errors: the scan
completes normally exactly when every configured rule either lacks a
pattern or has a parseable one; a single unparseable pattern makes the
whole scan (and hence `ats_score`) raise, and the remaining rules are
not processed. -/
theorem grammarScanE_ok_iff (text : Str) (rules : List GrammarRule) :
    isOkE (grammarScanE text rules) = rules.all ruleOk := by
  induction rules with
  | nil => rfl
  | cons r rs ih =>
    rw [List.all_cons, ← applyRule_isOk text r, ← ih]
    cases ha : applyRule text r with
    | error e =>
      have hstep : grammarScanE text (r :: rs) = .error e := by
        unfold grammarScanE
        rw [ha]
      rw [hstep]
      rfl
    | ok o =>
      cases o with
      | none =>
        have hstep : grammarScanE text (r :: rs) = grammarScanE text rs := by
          conv_lhs => unfold grammarScanE
          rw [ha]
        rw [hstep]
        simp [isOkE]
      | some iss =>
        cases hg : grammarScanE text rs with
        | error e =>
          have hstep : grammarScanE text (r :: rs) = .error e := by
            unfold grammarScanE
            rw [ha, hg]
          rw [hstep]
          rfl
        | ok l =>
          have hstep : grammarScanE text (r :: rs) = .ok (iss :: l) := by
            unfold grammarScanE
            rw [ha, hg]
          rw [hstep]
          rfl

set_option maxRecDepth 8000 in
/-- Claim C9, counterexample: a configuration whose first grammar rule
has the unparseable pattern "teh(" makes `ats_score` raise
(`Except.error`): the bad rule is not skipped, the good second rule
(violated once by the text) is never reported, and the call does not
complete normally. -/
theorem ats_score_bad_regex_cx :
    isOkE (ats_score "a teh b".data "t".data cxBadLang emptyProf .other) = false ∧
    grammarScanE "a teh b".data cxBadLang.grammar = .error "teh(".data ∧
    (litFinditer (lowerT "teh".data) (lowerT "a teh b".data)).length = 1 := by
  refine ⟨by decide, by decide, by decide⟩

theorem ats_score_ok_inv {cv industry : Str} {lang : LangCfg} {prof : ProfCfg}
    {ind : KwTree} {r : Report}
    (h : ats_score cv industry lang prof ind = .ok r) :
    r.ats_score =
      max 0 (min 100
        (max 0
          (min (r.keyword_matched.length : Int) 15 +
            min (r.industry_matched.length : Int) 20 +
            min ((r.action_verbs_found.map (fun p => p.2.length)).sum : Int) 10 +
            min ((r.quantification_found.map (fun p => p.2.length)).sum : Int) 10 +
            max 0 (10 - (r.readability_report.warnings.length : Int)) -
            (min 10 (r.grammar_issues.length : Int) +
              min 5 (r.weak_language_found.length : Int))) +
          min (r.industry_buzzwords_found.length : Int) 5)) := by
  unfold ats_score at h
  cases hq : quantScanE cv prof.quantification_patterns with
  | error e =>
    rw [hq] at h
    exact absurd h (by simp)
  | ok q =>
    rw [hq] at h
    cases hg : grammarScanE cv lang.grammar with
    | error e =>
      rw [hg] at h
      exact absurd h (by simp)
    | ok g =>
      rw [hg] at h
      have h2 := Except.ok.inj h
      rw [← h2]

/-- Claim C1: in `ats_score` the penalty
`min(10, grammarIssueCount) + min(5, weakHitCount)` is subtracted from
the cumulative keyword + industry + action-verb + quantification +
readability total with a floor at 0, the buzzword contribution (capped
at 5) is added only after that penalty-and-floor step, and the reported
score always lies in [0, 100]. -/
theorem ats_score_penalty_order_and_clamp (cv industry : Str) (lang : LangCfg)
    (prof : ProfCfg) (ind : KwTree) (r : Report)
    (h : ats_score cv industry lang prof ind = .ok r) :
    r.ats_score =
      max 0 (min 100
        (max 0
          (min (r.keyword_matched.length : Int) 15 +
            min (r.industry_matched.length : Int) 20 +
            min ((r.action_verbs_found.map (fun p => p.2.length)).sum : Int) 10 +
            min ((r.quantification_found.map (fun p => p.2.length)).sum : Int) 10 +
            max 0 (10 - (r.readability_report.warnings.length : Int)) -
            (min 10 (r.grammar_issues.length : Int) +
              min 5 (r.weak_language_found.length : Int))) +
          min (r.industry_buzzwords_found.length : Int) 5)) ∧
    0 ≤ r.ats_score ∧ r.ats_score ≤ 100 := by
  have e := ats_score_ok_inv h
  refine ⟨e, ?_, ?_⟩
  · rw [e]
    exact le_max_left 0 _
  · rw [e]
    omega

/-- Witness for C1 at empty text and empty configuration. -/
theorem ats_score_penalty_order_and_clamp_w :
    ats_score [] "tech".data emptyLang emptyProf .other = .ok emptyReport ∧
    (emptyReport.ats_score =
      max 0 (min 100
        (max 0
          (min (emptyReport.keyword_matched.length : Int) 15 +
            min (emptyReport.industry_matched.length : Int) 20 +
            min ((emptyReport.action_verbs_found.map (fun p => p.2.length)).sum : Int) 10 +
            min ((emptyReport.quantification_found.map (fun p => p.2.length)).sum : Int) 10 +
            max 0 (10 - (emptyReport.readability_report.warnings.length : Int)) -
            (min 10 (emptyReport.grammar_issues.length : Int) +
              min 5 (emptyReport.weak_language_found.length : Int))) +
          min (emptyReport.industry_buzzwords_found.length : Int) 5)) ∧
    0 ≤ emptyReport.ats_score ∧ emptyReport.ats_score ≤ 100) :=
  ⟨by decide,
    ats_score_penalty_order_and_clamp [] "tech".data emptyLang emptyProf .other
      emptyReport (by decide)⟩

/-- Claim C10: the positive contributions of `ats_score` are capped at
15 + 20 + 10 + 10 + 10 + 5 = 70 and the penalty only subtracts, so the
reported score never exceeds 70 (the clamp's upper bound 100 is
unreachable). -/
theorem ats_score_le_70 (cv industry : Str) (lang : LangCfg)
    (prof : ProfCfg) (ind : KwTree) (r : Report)
    (h : ats_score cv industry lang prof ind = .ok r) :
    r.ats_score ≤ 70 := by
  have e := ats_score_ok_inv h
  rw [e]
  have h1 : (0 : Int) ≤ (r.keyword_matched.length : Int) := Int.ofNat_nonneg _
  have h2 : (0 : Int) ≤ (r.industry_matched.length : Int) := Int.ofNat_nonneg _
  have h3 : (0 : Int) ≤ ((r.action_verbs_found.map (fun p => p.2.length)).sum : Int) :=
    List.sum_nonneg (by
      intro x hx
      obtain ⟨p, -, rfl⟩ := List.mem_map.mp hx
      exact Int.ofNat_nonneg _)
  have h4 : (0 : Int) ≤ ((r.quantification_found.map (fun p => p.2.length)).sum : Int) :=
    List.sum_nonneg (by
      intro x hx
      obtain ⟨p, -, rfl⟩ := List.mem_map.mp hx
      exact Int.ofNat_nonneg _)
  have h5 : (0 : Int) ≤ (r.grammar_issues.length : Int) := Int.ofNat_nonneg _
  have h6 : (0 : Int) ≤ (r.weak_language_found.length : Int) := Int.ofNat_nonneg _
  have h7 : (0 : Int) ≤ (r.industry_buzzwords_found.length : Int) := Int.ofNat_nonneg _
  omega

/-- Witness for C10 at empty text and empty configuration. -/
theorem ats_score_le_70_w :
    ats_score [] "product".data emptyLang emptyProf .other = .ok emptyReport ∧
    emptyReport.ats_score ≤ 70 :=
  ⟨by decide,
    ats_score_le_70 [] "product".data emptyLang emptyProf .other emptyReport (by decide)⟩

set_option maxRecDepth 8000 in
/-- Claim C5, counterexample: on a document whose experience section
contains the five-month range "jan 2020 - jun 2020",
`_extract_experience` determines zero years (`some 0`, with the section
present), yet `parse_resume_text`'s truthiness check maps that zero to
the same caller-visible absent value (`none`) that a document with no
experience heading produces — absence and zero are conflated in
`no_of_years_experience`. -/
theorem experience_zero_conflation_cx :
    (extract_experience now0 cxExpText).years = some 0 ∧
    (extract_experience now0 cxExpText).has_section = true ∧
    noOfYearsExperience now0 cxExpText = none ∧
    (extract_experience now0 cxNoHeadText).years = none ∧
    noOfYearsExperience now0 cxNoHeadText = none := by
  refine ⟨by decide, by decide, by decide, by decide, by decide⟩

/-- Claim C5, amended: for every document with no experience-section
heading the extracted years value is absent (`none`, not zero) and the
caller-visible field is likewise absent; however absence and a
determined zero are distinguishable only inside `_extract_experience`'s
own result — `parse_resume_text` assigns `no_of_years_experience` only
when the years value is truthy, so a determined zero is reported to
callers exactly like absence. -/
theorem experience_absent_no_heading (now : Nat × Nat) (text : Str)
    (h : expHeadSpans (lowerT text) = []) :
    (extract_experience now text).years = none ∧
    (extract_experience now text).has_section = false ∧
    noOfYearsExperience now text = none := by
  have h1 : extract_experience now text = ⟨none, false⟩ := by
    unfold extract_experience expBlocks
    simp [h]
  refine ⟨by rw [h1], by rw [h1], ?_⟩
  unfold noOfYearsExperience
  rw [h1]

/-- Witness for C5 (amended) at a concrete heading-less text. -/
theorem experience_absent_no_heading_w :
    expHeadSpans (lowerT cxNoHeadText) = [] ∧
    ((extract_experience now0 cxNoHeadText).years = none ∧
      (extract_experience now0 cxNoHeadText).has_section = false ∧
      noOfYearsExperience now0 cxNoHeadText = none) :=
  ⟨by decide, experience_absent_no_heading now0 cxNoHeadText (by decide)⟩

set_option maxRecDepth 8000 in
/-- Claim C8: phone extraction on "+44 7700 900123" yields country code
"+44" and national number "7700900123"; in general, the national part
of a pattern-1 match is stripped to its digits (the result is all
digits), and when the national digits begin with the matched country
code that code is removed exactly once (a doubled code keeps its second
copy). -/
theorem extract_phone_intl (cc rest raw : Str)
    (h1 : (cc ++ cc ++ rest).all Char.isDigit = true) (h2 : cc ≠ []) :
    extract_phone "+44 7700 900123".data =
      ⟨some "+447700900123".data, some "+44".data, some "7700900123".data⟩ ∧
    (nationalFrom cc raw).all Char.isDigit = true ∧
    nationalFrom cc (cc ++ cc ++ rest) = cc ++ rest := by
  refine ⟨by decide, ?_, ?_⟩
  · have hfilter : ∀ x ∈ raw.filter Char.isDigit, Char.isDigit x = true :=
      fun x hx => (List.mem_filter.mp hx).2
    unfold nationalFrom
    by_cases hpre : cc ≠ [] ∧ cc.isPrefixOf (raw.filter Char.isDigit) = true
    · rw [if_pos hpre]
      apply List.all_eq_true.mpr
      intro x hx
      exact hfilter x (List.drop_subset _ _ hx)
    · rw [if_neg hpre]
      exact List.all_eq_true.mpr hfilter
  · unfold nationalFrom
    have hd : (cc ++ cc ++ rest).filter Char.isDigit = cc ++ cc ++ rest :=
      List.filter_eq_self.mpr (fun a ha => List.all_eq_true.mp h1 a ha)
    rw [hd]
    have hpre : cc.isPrefixOf (cc ++ cc ++ rest) = true := by
      rw [List.isPrefixOf_iff_prefix, List.append_assoc]
      exact List.prefix_append _ _
    rw [if_pos ⟨h2, hpre⟩, List.append_assoc, List.drop_left]

/-- Witness for C8 with the country code doubled in the digits. -/
theorem extract_phone_intl_w :
    ("44".data ++ "44".data ++ "123".data).all Char.isDigit = true ∧
    "44".data ≠ ([] : Str) ∧
    (extract_phone "+44 7700 900123".data =
      ⟨some "+447700900123".data, some "+44".data, some "7700900123".data⟩ ∧
    (nationalFrom "44".data "a4-4b".data).all Char.isDigit = true ∧
    nationalFrom "44".data ("44".data ++ "44".data ++ "123".data) =
      "44".data ++ "123".data) :=
  ⟨by decide, by decide,
    extract_phone_intl "44".data "123".data "a4-4b".data (by decide) (by decide)⟩

end CvBuilder
